import Mathlib

/-!
Shallow embedding of the Ditto image-mirroring bot (src/index.ts).

The program reacts to three chat events (message create / update / delete),
keeps an in-memory ledger mapping origin-message ids to mirrored-message ids
(`forwardMap`), downloads candidate image URLs sequentially, and sends,
replaces or deletes a single mirror message in a fixed target channel.

The embedding models each event handler as a pure function from a ledger
state, the event's message, and a fetch environment (the outcome of the
external network calls: per-URL download results, target-channel resolution,
mirror-message resolution, and the id the bus assigns to a sent message) to
the new ledger plus the ordered list of observable actions the handler
performs.  Network I/O itself is external to the program and is therefore an
oracle (`FetchEnv`); everything else is translated from the source.
-/

namespace Ditto

/-- Configuration read once at startup (SOURCE_CHANNELS, TARGET_CHANNEL,
MAX_UPLOAD_BYTES default 8*1024*1024, UPLOAD_DELAY_MS default 800). -/
structure Config where
  sourceChannels : List String
  targetChannelId : String
  maxUploadBytes : Nat := 8388608
  uploadDelayMs : Nat := 800

/-- Author fields the handlers inspect: `tag`, `username`, `bot`. -/
structure Author where
  tag : Option String
  username : Option String
  bot : Bool
deriving DecidableEq, Repr

/-- Attachment descriptor: `contentType`, `name`, `url` (as in discord.js,
the first two may be null). -/
structure Attachment where
  contentType : Option String
  name : Option String
  url : String
deriving DecidableEq, Repr

/-- Embed fields the handlers inspect: `image?.url`, `thumbnail?.url`, `url`. -/
structure Embed where
  image : Option String
  thumbnail : Option String
  url : Option String
deriving DecidableEq, Repr

/-- Message fields the handlers inspect.  `memberUser` models the
`m.member?.user` fallback used by `safeAuthorTag`. -/
structure Msg where
  id : String
  channelId : Option String
  author : Option Author
  memberUser : Option Author
  attachments : List Attachment
  embeds : List Embed
deriving DecidableEq, Repr

/-- Character-list prefix test; models JS `String.prototype.startsWith`. -/
def strStartsWith (s p : String) : Bool := p.data.isPrefixOf s.data

/-- Character-list suffix test; models an anchored `...$` regex match. -/
def strEndsWith (s p : String) : Bool := p.data.isSuffixOf s.data

/-- ASCII lower-casing of one character (the `/i` regex flag only matters on
the ASCII extension alphabet). -/
def lowerChar (c : Char) : Char :=
  if 'A' ≤ c ∧ c ≤ 'Z' then Char.ofNat (c.toNat + 32) else c

/-- ASCII lower-casing of a string. -/
def lowerStr (s : String) : String := ⟨s.data.map lowerChar⟩

/-- The fixed extension set of the regex `\.(jpe?g|png|gif|webp|bmp|svg|avif)$`. -/
def imageExts : List String :=
  [".jpg", ".jpeg", ".png", ".gif", ".webp", ".bmp", ".svg", ".avif"]

/-- Case-insensitive test for an image extension at the end of a string,
modelling `/\.(jpe?g|png|gif|webp|bmp|svg|avif)$/i.test s`. -/
def hasImageExt (s : String) : Bool :=
  imageExts.any (fun e => strEndsWith (lowerStr s) e)

/-- Translation of `isImageAttachment`: a non-empty content type decides by
`startsWith "image"`; otherwise the name or the url must carry an image
extension. -/
def isImageAttachment (att : Attachment) : Bool :=
  let ct := att.contentType.getD ""
  if ct ≠ "" then strStartsWith ct "image"
  else hasImageExt (att.name.getD "") || hasImageExt att.url

/-- JS truthiness on an optional string: empty strings are falsy. -/
def truthy (o : Option String) : Option String :=
  match o with
  | some s => if s = "" then none else some s
  | none => none

/-- Translation of the per-embed choice in both handlers: first of
`e.image?.url`, `e.thumbnail?.url`, `e.url`, each under JS truthiness. -/
def embedUrl (e : Embed) : Option String :=
  (truthy e.image).orElse fun _ =>
    (truthy e.thumbnail).orElse fun _ => truthy e.url

/-- Ordered embed image URLs, at most one per embed. -/
def extractEmbedUrls (embeds : List Embed) : List String :=
  embeds.filterMap embedUrl

/-- Translation of `safeAuthorTag`. -/
def safeAuthorTag (m : Msg) : String :=
  match m.author.orElse fun _ => m.memberUser with
  | some a =>
    match truthy a.tag with
    | some t => t
    | none =>
      match truthy a.username with
      | some u => u ++ "#0000"
      | none => "Unknown#0000"
  | none => "Unknown#0000"

/-- Translation of `safeChannelRef` (`m.channelId ?? 'unknown-channel'`). -/
def safeChannelRef (m : Msg) : String := m.channelId.getD "unknown-channel"

/-- Translation of `isSourceChannel` (`!!id && SOURCE_CHANNELS.includes(id)`). -/
def isSourceChannel (cfg : Config) (id : Option String) : Bool :=
  match id with
  | none => false
  | some s => s ≠ "" && cfg.sourceChannels.contains s

/-- Characters kept by the sanitizer regex `[^a-zA-Z0-9._-]`. -/
def isAllowedChar (c : Char) : Bool :=
  (decide ('a' ≤ c) && decide (c ≤ 'z')) ||
  (decide ('A' ≤ c) && decide (c ≤ 'Z')) ||
  (decide ('0' ≤ c) && decide (c ≤ '9')) ||
  c == '.' || c == '_' || c == '-'

/-- Translation of `.replace(/[^a-zA-Z0-9._-]/g, '_').slice(0, 120)`. -/
def sanitizeName (s : String) : String :=
  ⟨(s.data.map fun c => if isAllowedChar c then c else '_').take 120⟩

/-- The in-memory `forwardMap` (JS `Map<string, string>`), as an ordered
association list with unique keys maintained by `lset`. -/
abbrev Ledger := List (String × String)

/-- `Map.get`: the value of the first (unique) entry with the given key. -/
def lget (st : Ledger) (k : String) : Option String :=
  (st.find? fun p => p.1 == k).map fun p => p.2

/-- `Map.set`: replace the existing entry in place or append a new one. -/
def lset : Ledger → String → String → Ledger
  | [], k, v => [(k, v)]
  | p :: rest, k, v => if p.1 == k then (k, v) :: rest else p :: lset rest k v

/-- `Map.delete`: remove the entry with the given key. -/
def ldel (st : Ledger) (k : String) : Ledger :=
  st.filter fun p => !(p.1 == k)

/-- Result of a successful `downloadToBuffer` call: the payload byte length
and the filename the downloader derived (URL basename, with an extension
appended from the response content type when needed). -/
structure Download where
  size : Nat
  name : String
deriving DecidableEq, Repr

/-- An outbound file (`new AttachmentBuilder(buffer, name)`): payload size
and final filename. -/
structure OutFile where
  size : Nat
  name : String
deriving DecidableEq, Repr

/-- Oracle for the external calls one event performs: the per-URL download
outcome (`none` models a failed `downloadToBuffer`), whether the target
channel resolves to a usable text channel, whether fetching the recorded
mirror message succeeds, and the id the bus assigns to the message this
event sends. -/
structure FetchEnv where
  download : String → Option Download
  targetOk : Bool
  mirrorFound : Bool
  newId : String

/-- Observable actions of one handler run, in program order. -/
inductive Action where
  | attempt (url : String)
  | skipFail (url : String)
  | skipSize (url : String) (size : Nat)
  | accepted (url : String) (name : String)
  | delayA (ms : Nat)
  | fetchTarget
  | fetchMirror (id : String) (found : Bool)
  | deleteMirror (id : String)
  | send (content : String) (files : List OutFile) (sentId : String)
deriving DecidableEq, Repr

/-- Translation of `makeFilesFromUrls`: walk the url list with the parallel
fallback-name list (an out-of-range index reads as `undefined`, i.e. `none`),
skip failed downloads and oversized payloads, sanitize the chosen name, and
delay after each accepted file.  Returns the files plus the action trace. -/
def makeFilesFromUrls (cfg : Config) (env : FetchEnv) :
    List String → List (Option String) → List OutFile × List Action
  | [], _ => ([], [])
  | url :: us, fbs =>
    let fallback : Option String := fbs.head?.getD none
    match env.download url with
    | none =>
      let r := makeFilesFromUrls cfg env us fbs.tail
      (r.1, Action.attempt url :: Action.skipFail url :: r.2)
    | some d =>
      if d.size > cfg.maxUploadBytes then
        let r := makeFilesFromUrls cfg env us fbs.tail
        (r.1, Action.attempt url :: Action.skipSize url d.size :: r.2)
      else
        let safeName := sanitizeName (fallback.getD d.name)
        let r := makeFilesFromUrls cfg env us fbs.tail
        (⟨d.size, safeName⟩ :: r.1,
          Action.attempt url :: Action.accepted url safeName ::
            Action.delayA cfg.uploadDelayMs :: r.2)

/-- Candidate list as (url, fallback-name) pairs, pairing each url with the
fallback name at the same index (missing indices read as `none`). -/
def candList : List String → List (Option String) → List (String × Option String)
  | [], _ => []
  | u :: us, fbs => (u, fbs.head?.getD none) :: candList us fbs.tail

/-- The outbound file one candidate contributes, if any: `none` when the
download fails or the payload exceeds the configured maximum. -/
def fileOfCandidate (cfg : Config) (env : FetchEnv) (c : String × Option String) :
    Option OutFile :=
  match env.download c.1 with
  | none => none
  | some d =>
    if d.size > cfg.maxUploadBytes then none
    else some ⟨d.size, sanitizeName (c.2.getD d.name)⟩

/-- Header text composed by the handlers:
`**tag** from <#channel>`, with a trailing `" (edited)"` on the update path. -/
def headerFor (m : Msg) (edited : Bool) : String :=
  "**" ++ safeAuthorTag m ++ "** from <#" ++ safeChannelRef m ++ ">" ++
    (if edited then " (edited)" else "")

/-- Candidate URLs of a message: image attachments first (in order), then
embed images, exactly as the urls array is built in both handlers. -/
def candidateUrls (m : Msg) : List String :=
  (m.attachments.filter isImageAttachment).map Attachment.url ++
    extractEmbedUrls m.embeds

/-- Fallback names parallel to `candidateUrls`: the attachment name (or
`none`) per attachment, then `none` per embed url. -/
def candidateNames (m : Msg) : List (Option String) :=
  (m.attachments.filter isImageAttachment).map Attachment.name ++
    (extractEmbedUrls m.embeds).map fun _ => none

/-- Translation of the create handler's loop-prevention test
`message.author?.bot` (undefined author reads as falsy). -/
def authorIsBot (m : Msg) : Bool := (m.author.map Author.bot).getD false

/-- Translation of the `messageCreate` handler.  Returns the new ledger and
the ordered actions: target-channel fetch, the download trace, then one send
(files, or header plus the raw urls as text when no file was fetched). -/
def messageCreate (cfg : Config) (env : FetchEnv) (st : Ledger) (m : Msg) :
    Ledger × List Action :=
  if authorIsBot m then (st, [])
  else if !(isSourceChannel cfg m.channelId) then (st, [])
  else if (m.attachments.filter isImageAttachment).isEmpty &&
      (extractEmbedUrls m.embeds).isEmpty then (st, [])
  else if !env.targetOk then (st, [Action.fetchTarget])
  else
    let urls := candidateUrls m
    let names := candidateNames m
    let r := makeFilesFromUrls cfg env urls names
    let hdr := headerFor m false
    if r.1.isEmpty then
      (lset st m.id env.newId,
        Action.fetchTarget :: r.2 ++
          [Action.send (hdr ++ "\n" ++ String.intercalate "\n" urls) [] env.newId])
    else
      (lset st m.id env.newId,
        Action.fetchTarget :: r.2 ++ [Action.send hdr r.1 env.newId])

/-- Translation of the `messageUpdate` handler.  Zero images: delete the
mirror (when one is recorded and still fetchable) and drop the ledger entry.
Images present: download first, then resolve the target, delete the old
mirror when recorded, and send the replacement with an edited header.  A
failing target-channel fetch raises and is caught by the handler's outer
`catch`, leaving the ledger untouched. -/
def messageUpdate (cfg : Config) (env : FetchEnv) (st : Ledger) (m : Msg) :
    Ledger × List Action :=
  if !(isSourceChannel cfg m.channelId) then (st, [])
  else
    let fwd := lget st m.id
    if (m.attachments.filter isImageAttachment).isEmpty &&
        (extractEmbedUrls m.embeds).isEmpty then
      match fwd with
      | none => (st, [])
      | some fid =>
        if !env.targetOk then (st, [Action.fetchTarget])
        else
          (ldel st m.id,
            Action.fetchTarget :: Action.fetchMirror fid env.mirrorFound ::
              (if env.mirrorFound then [Action.deleteMirror fid] else []))
    else
      let urls := candidateUrls m
      let names := candidateNames m
      let r := makeFilesFromUrls cfg env urls names
      if !env.targetOk then (st, r.2 ++ [Action.fetchTarget])
      else
        let hdr := headerFor m true
        let content :=
          if r.1.isEmpty then hdr ++ "\n" ++ String.intercalate "\n" urls else hdr
        match fwd with
        | some fid =>
          (lset st m.id env.newId,
            r.2 ++ Action.fetchTarget :: Action.fetchMirror fid env.mirrorFound ::
              ((if env.mirrorFound then [Action.deleteMirror fid] else []) ++
                [Action.send content r.1 env.newId]))
        | none =>
          (lset st m.id env.newId,
            r.2 ++ [Action.fetchTarget, Action.send content r.1 env.newId])

/-- Translation of the `messageDelete` handler: it inspects only the message
id (no channel or author check), and a failing target-channel fetch aborts
before the ledger entry is removed. -/
def messageDelete (_cfg : Config) (env : FetchEnv) (st : Ledger) (m : Msg) :
    Ledger × List Action :=
  match lget st m.id with
  | none => (st, [])
  | some fid =>
    if !env.targetOk then (st, [Action.fetchTarget])
    else
      (ldel st m.id,
        Action.fetchTarget :: Action.fetchMirror fid env.mirrorFound ::
          (if env.mirrorFound then [Action.deleteMirror fid] else []))

/-- Inbound events, each carrying the (resolved) message it concerns. -/
inductive Event where
  | create (m : Msg)
  | update (m : Msg)
  | delete (m : Msg)

/-- The message an event concerns. -/
def Event.msg : Event → Msg
  | .create m => m
  | .update m => m
  | .delete m => m

/-- One handler dispatch. -/
def step (cfg : Config) (env : FetchEnv) (st : Ledger) : Event → Ledger × List Action
  | .create m => messageCreate cfg env st m
  | .update m => messageUpdate cfg env st m
  | .delete m => messageDelete cfg env st m

/-- Ledger reached after processing a sequence of events (each with the
fetch environment its external calls saw). -/
def runTrace (cfg : Config) (st : Ledger) (evs : List (FetchEnv × Event)) : Ledger :=
  evs.foldl (fun s p => (step cfg p.1 s p.2).1) st

/-- Test for a send action. -/
def isSend : Action → Bool
  | .send _ _ _ => true
  | _ => false

/-- Test for a target-side delete action. -/
def isDeleteMirror : Action → Bool
  | .deleteMirror _ => true
  | _ => false

/-- Test for a download attempt. -/
def isAttempt : Action → Bool
  | .attempt _ => true
  | _ => false

/-- Number of sends in a trace. -/
def countSends (tr : List Action) : Nat := (tr.filter isSend).length

/-- Number of target-side deletes in a trace. -/
def countDeletes (tr : List Action) : Nat := (tr.filter isDeleteMirror).length

/-- The urls attempted by a trace, in order. -/
def attemptsOf (tr : List Action) : List String :=
  tr.filterMap fun a =>
    match a with
    | .attempt u => some u
    | _ => none

/-- Actions internal to the download loop (no bus send or delete). -/
def isFetchAction : Action → Bool
  | .attempt _ => true
  | .skipFail _ => true
  | .skipSize _ _ => true
  | .accepted _ _ => true
  | .delayA _ => true
  | _ => false

/-- Scanner for the claim that every candidate (successful or skipped) is
followed by a delay before the next retrieval starts: it fails when two
download attempts occur with no delay between them.  The flag records that
an attempt has been seen with no delay since. -/
def spacedFrom : Bool → List Action → Bool
  | _, [] => true
  | pending, Action.attempt _ :: tr => !pending && spacedFrom true tr
  | _, Action.delayA _ :: tr => spacedFrom false tr
  | pending, _ :: tr => spacedFrom pending tr

/-- Every gap between consecutive download attempts contains a delay. -/
def allGapsDelayed (tr : List Action) : Bool := spacedFrom false tr

/-- Scanner for the code's actual pacing: a delay occurs immediately after
each accepted file and nowhere else. -/
def delayOnlyAfterAccept : List Action → Bool
  | [] => true
  | Action.accepted _ _ :: Action.delayA _ :: tr => delayOnlyAfterAccept tr
  | Action.accepted _ _ :: _ => false
  | Action.delayA _ :: _ => false
  | _ :: tr => delayOnlyAfterAccept tr

/-- Scanner for the spec's claimed replace order (delete before fetching):
true when no download attempt precedes the first target-side delete. -/
def noAttemptBeforeDelete : List Action → Bool
  | [] => true
  | Action.deleteMirror _ :: _ => true
  | Action.attempt _ :: _ => false
  | _ :: tr => noAttemptBeforeDelete tr

theorem lget_nil (k : String) : lget [] k = none := rfl

theorem lget_cons (p : String × String) (rest : Ledger) (k : String) :
    lget (p :: rest) k = if p.1 = k then some p.2 else lget rest k := by
  by_cases h : p.1 = k
  · simp [lget, List.find?_cons_of_pos, h]
  · have hb : (p.1 == k) = false := by simp [h]
    simp [lget, List.find?_cons_of_neg, hb, h]

theorem lget_lset (st : Ledger) (k v k' : String) :
    lget (lset st k v) k' = if k' = k then some v else lget st k' := by
  induction st with
  | nil =>
    by_cases h : k' = k
    · subst h; simp [lset, lget_cons]
    · have h' : ¬ k = k' := fun hc => h hc.symm
      simp [lset, lget_cons, lget_nil, h, h']
  | cons p rest ih =>
    by_cases hpk : p.1 = k
    · by_cases hk : k' = k
      · subst hk; simp [lset, hpk, lget_cons]
      · have hkk : ¬ k = k' := fun hc => hk hc.symm
        have hpk' : ¬ p.1 = k' := fun hc => hkk (hpk ▸ hc)
        simp [lset, hpk, lget_cons, hkk, hpk', hk]
    · by_cases hpk' : p.1 = k'
      · have hk : ¬ k' = k := fun hc => hpk (by rw [hpk', hc])
        simp [lset, hpk, lget_cons, hpk', hk]
      · simp [lset, hpk, lget_cons, hpk', ih]

theorem lget_ldel (st : Ledger) (k k' : String) :
    lget (ldel st k) k' = if k' = k then none else lget st k' := by
  induction st with
  | nil =>
    by_cases h : k' = k <;> simp [ldel, lget_nil, h]
  | cons p rest ih =>
    by_cases hpk : p.1 = k
    · have : ldel (p :: rest) k = ldel rest k := by
        simp [ldel, List.filter_cons, hpk]
      by_cases hk : k' = k
      · subst hk; simp [this, ih]
      · have hpk' : ¬ p.1 = k' := fun hc => hk (by rw [← hc, hpk])
        simp [this, ih, hk, lget_cons, hpk']
    · have : ldel (p :: rest) k = p :: ldel rest k := by
        simp [ldel, List.filter_cons, hpk]
      by_cases hpk' : p.1 = k'
      · have hk : ¬ k' = k := fun hc => hpk (by rw [hpk', hc])
        simp [this, lget_cons, hpk', hk]
      · simp [this, lget_cons, hpk', ih]

theorem lget_lset_self (st : Ledger) (k v : String) :
    lget (lset st k v) k = some v := by
  simp [lget_lset]

theorem lget_ldel_self (st : Ledger) (k : String) :
    lget (ldel st k) k = none := by
  simp [lget_ldel]

theorem makeFiles_files (cfg : Config) (env : FetchEnv) :
    ∀ (urls : List String) (fbs : List (Option String)),
      (makeFilesFromUrls cfg env urls fbs).1 =
        (candList urls fbs).filterMap (fileOfCandidate cfg env) := by
  intro urls
  induction urls with
  | nil => intro fbs; simp [makeFilesFromUrls, candList]
  | cons u us ih =>
    intro fbs
    cases hd : env.download u with
    | none =>
      simp [makeFilesFromUrls, candList, fileOfCandidate, hd, ih]
    | some d =>
      by_cases hs : d.size > cfg.maxUploadBytes
      · simp [makeFilesFromUrls, candList, fileOfCandidate, hd, hs, ih]
      · simp [makeFilesFromUrls, candList, fileOfCandidate, hd, hs, ih]

theorem makeFiles_attempts (cfg : Config) (env : FetchEnv) :
    ∀ (urls : List String) (fbs : List (Option String)),
      attemptsOf (makeFilesFromUrls cfg env urls fbs).2 = urls := by
  intro urls
  induction urls with
  | nil => intro fbs; simp [makeFilesFromUrls, attemptsOf]
  | cons u us ih =>
    intro fbs
    cases hd : env.download u with
    | none => simpa [makeFilesFromUrls, attemptsOf, hd] using ih fbs.tail
    | some d =>
      by_cases hs : d.size > cfg.maxUploadBytes
      · simpa [makeFilesFromUrls, attemptsOf, hd, hs] using ih fbs.tail
      · simpa [makeFilesFromUrls, attemptsOf, hd, hs] using ih fbs.tail

theorem makeFiles_countSends (cfg : Config) (env : FetchEnv) :
    ∀ (urls : List String) (fbs : List (Option String)),
      countSends (makeFilesFromUrls cfg env urls fbs).2 = 0 := by
  intro urls
  induction urls with
  | nil => intro fbs; simp [makeFilesFromUrls, countSends]
  | cons u us ih =>
    intro fbs
    cases hd : env.download u with
    | none => simpa [makeFilesFromUrls, countSends, isSend, hd] using ih fbs.tail
    | some d =>
      by_cases hs : d.size > cfg.maxUploadBytes
      · simpa [makeFilesFromUrls, countSends, isSend, hd, hs] using ih fbs.tail
      · simpa [makeFilesFromUrls, countSends, isSend, hd, hs] using ih fbs.tail

theorem makeFiles_countDeletes (cfg : Config) (env : FetchEnv) :
    ∀ (urls : List String) (fbs : List (Option String)),
      countDeletes (makeFilesFromUrls cfg env urls fbs).2 = 0 := by
  intro urls
  induction urls with
  | nil => intro fbs; simp [makeFilesFromUrls, countDeletes]
  | cons u us ih =>
    intro fbs
    cases hd : env.download u with
    | none => simpa [makeFilesFromUrls, countDeletes, isDeleteMirror, hd] using ih fbs.tail
    | some d =>
      by_cases hs : d.size > cfg.maxUploadBytes
      · simpa [makeFilesFromUrls, countDeletes, isDeleteMirror, hd, hs] using ih fbs.tail
      · simpa [makeFilesFromUrls, countDeletes, isDeleteMirror, hd, hs] using ih fbs.tail

theorem makeFiles_delayOnly (cfg : Config) (env : FetchEnv) :
    ∀ (urls : List String) (fbs : List (Option String)),
      delayOnlyAfterAccept (makeFilesFromUrls cfg env urls fbs).2 = true := by
  intro urls
  induction urls with
  | nil => intro fbs; simp [makeFilesFromUrls, delayOnlyAfterAccept]
  | cons u us ih =>
    intro fbs
    cases hd : env.download u with
    | none => simp [makeFilesFromUrls, delayOnlyAfterAccept, hd, ih fbs.tail]
    | some d =>
      by_cases hs : d.size > cfg.maxUploadBytes
      · simp [makeFilesFromUrls, delayOnlyAfterAccept, hd, hs, ih fbs.tail]
      · simp [makeFilesFromUrls, delayOnlyAfterAccept, hd, hs, ih fbs.tail]

theorem candList_fst :
    ∀ (urls : List String) (fbs : List (Option String)),
      (candList urls fbs).map Prod.fst = urls := by
  intro urls
  induction urls with
  | nil => intro fbs; simp [candList]
  | cons u us ih => intro fbs; simp [candList, ih fbs.tail]

theorem candList_length :
    ∀ (urls : List String) (fbs : List (Option String)),
      (candList urls fbs).length = urls.length := by
  intro urls
  induction urls with
  | nil => intro fbs; simp [candList]
  | cons u us ih => intro fbs; simp [candList, ih fbs.tail]

theorem strEndsWith_append (a b : String) : strEndsWith (a ++ b) b = true := by
  have hdata : (a ++ b).data = a.data ++ b.data := rfl
  simp [strEndsWith, hdata, List.isSuffixOf_iff_suffix, List.suffix_append]

theorem headerFor_edited_suffix (m : Msg) :
    strEndsWith (headerFor m true) " (edited)" = true := by
  simpa [headerFor] using
    strEndsWith_append
      ("**" ++ safeAuthorTag m ++ "** from <#" ++ safeChannelRef m ++ ">") " (edited)"

theorem sanitizeName_length (s : String) : (sanitizeName s).length ≤ 120 := by
  show ((s.data.map fun c => if isAllowedChar c then c else '_').take 120).length ≤ 120
  rw [List.length_take]
  exact min_le_left _ _

theorem sanitizeName_allowed (s : String) :
    (sanitizeName s).data.all isAllowedChar = true := by
  show ((s.data.map fun c => if isAllowedChar c then c else '_').take 120).all
    isAllowedChar = true
  rw [List.all_eq_true]
  intro c hc
  have hc' := List.mem_of_mem_take hc
  rcases List.mem_map.mp hc' with ⟨c0, _, hmap⟩
  by_cases h : isAllowedChar c0
  · rw [← hmap, if_pos h]; exact h
  · rw [← hmap, if_neg h]; decide

theorem messageCreate_noop_bot (cfg : Config) (env : FetchEnv) (st : Ledger) (m : Msg)
    (hbot : authorIsBot m = true) :
    messageCreate cfg env st m = (st, []) := by
  simp [messageCreate, hbot]

theorem messageCreate_noop_nonsource (cfg : Config) (env : FetchEnv) (st : Ledger)
    (m : Msg) (hsrc : isSourceChannel cfg m.channelId = false) :
    messageCreate cfg env st m = (st, []) := by
  by_cases hb : authorIsBot m <;> simp [messageCreate, hsrc, hb]

theorem messageCreate_noop_noimages (cfg : Config) (env : FetchEnv) (st : Ledger)
    (m : Msg)
    (himg : ((m.attachments.filter isImageAttachment).isEmpty &&
      (extractEmbedUrls m.embeds).isEmpty) = true) :
    messageCreate cfg env st m = (st, []) := by
  by_cases hb : authorIsBot m
  · simp [messageCreate, hb]
  · by_cases hs : isSourceChannel cfg m.channelId <;>
      simp [messageCreate, hb, hs, himg]

theorem messageCreate_eq (cfg : Config) (env : FetchEnv) (st : Ledger) (m : Msg)
    (hbot : authorIsBot m = false)
    (hsrc : isSourceChannel cfg m.channelId = true)
    (himg : ((m.attachments.filter isImageAttachment).isEmpty &&
      (extractEmbedUrls m.embeds).isEmpty) = false)
    (htgt : env.targetOk = true) :
    messageCreate cfg env st m =
      (lset st m.id env.newId,
        Action.fetchTarget ::
          (makeFilesFromUrls cfg env (candidateUrls m) (candidateNames m)).2 ++
          [Action.send
            (if (makeFilesFromUrls cfg env (candidateUrls m) (candidateNames m)).1.isEmpty
              then headerFor m false ++ "\n" ++ String.intercalate "\n" (candidateUrls m)
              else headerFor m false)
            (makeFilesFromUrls cfg env (candidateUrls m) (candidateNames m)).1
            env.newId]) := by
  by_cases hf : (makeFilesFromUrls cfg env (candidateUrls m) (candidateNames m)).1.isEmpty
  · have hnil := List.isEmpty_iff.mp hf
    simp [messageCreate, hbot, hsrc, himg, htgt, hf, hnil]
  · simp [messageCreate, hbot, hsrc, himg, htgt, hf]

theorem messageUpdate_noop_nonsource (cfg : Config) (env : FetchEnv) (st : Ledger)
    (m : Msg) (hsrc : isSourceChannel cfg m.channelId = false) :
    messageUpdate cfg env st m = (st, []) := by
  simp [messageUpdate, hsrc]

theorem messageUpdate_zero_noentry (cfg : Config) (env : FetchEnv) (st : Ledger)
    (m : Msg)
    (himg : ((m.attachments.filter isImageAttachment).isEmpty &&
      (extractEmbedUrls m.embeds).isEmpty) = true)
    (hfwd : lget st m.id = none) :
    messageUpdate cfg env st m = (st, []) := by
  by_cases hs : isSourceChannel cfg m.channelId <;>
    simp [messageUpdate, hs, himg, hfwd]

theorem messageUpdate_zero_entry (cfg : Config) (env : FetchEnv) (st : Ledger)
    (m : Msg) (fid : String)
    (hsrc : isSourceChannel cfg m.channelId = true)
    (himg : ((m.attachments.filter isImageAttachment).isEmpty &&
      (extractEmbedUrls m.embeds).isEmpty) = true)
    (hfwd : lget st m.id = some fid)
    (htgt : env.targetOk = true) :
    messageUpdate cfg env st m =
      (ldel st m.id,
        Action.fetchTarget :: Action.fetchMirror fid env.mirrorFound ::
          (if env.mirrorFound then [Action.deleteMirror fid] else [])) := by
  simp [messageUpdate, hsrc, himg, hfwd, htgt]

theorem messageUpdate_replace (cfg : Config) (env : FetchEnv) (st : Ledger)
    (m : Msg) (fid : String)
    (hsrc : isSourceChannel cfg m.channelId = true)
    (himg : ((m.attachments.filter isImageAttachment).isEmpty &&
      (extractEmbedUrls m.embeds).isEmpty) = false)
    (hfwd : lget st m.id = some fid)
    (htgt : env.targetOk = true) :
    messageUpdate cfg env st m =
      (lset st m.id env.newId,
        (makeFilesFromUrls cfg env (candidateUrls m) (candidateNames m)).2 ++
          Action.fetchTarget :: Action.fetchMirror fid env.mirrorFound ::
          ((if env.mirrorFound then [Action.deleteMirror fid] else []) ++
            [Action.send
              (if (makeFilesFromUrls cfg env (candidateUrls m) (candidateNames m)).1.isEmpty
                then headerFor m true ++ "\n" ++ String.intercalate "\n" (candidateUrls m)
                else headerFor m true)
              (makeFilesFromUrls cfg env (candidateUrls m) (candidateNames m)).1
              env.newId])) := by
  simp [messageUpdate, hsrc, himg, hfwd, htgt]

theorem messageUpdate_deferred (cfg : Config) (env : FetchEnv) (st : Ledger)
    (m : Msg)
    (hsrc : isSourceChannel cfg m.channelId = true)
    (himg : ((m.attachments.filter isImageAttachment).isEmpty &&
      (extractEmbedUrls m.embeds).isEmpty) = false)
    (hfwd : lget st m.id = none)
    (htgt : env.targetOk = true) :
    messageUpdate cfg env st m =
      (lset st m.id env.newId,
        (makeFilesFromUrls cfg env (candidateUrls m) (candidateNames m)).2 ++
          [Action.fetchTarget,
            Action.send
              (if (makeFilesFromUrls cfg env (candidateUrls m) (candidateNames m)).1.isEmpty
                then headerFor m true ++ "\n" ++ String.intercalate "\n" (candidateUrls m)
                else headerFor m true)
              (makeFilesFromUrls cfg env (candidateUrls m) (candidateNames m)).1
              env.newId]) := by
  simp [messageUpdate, hsrc, himg, hfwd, htgt]

theorem messageCreate_notarget (cfg : Config) (env : FetchEnv) (st : Ledger) (m : Msg)
    (hbot : authorIsBot m = false)
    (hsrc : isSourceChannel cfg m.channelId = true)
    (himg : ((m.attachments.filter isImageAttachment).isEmpty &&
      (extractEmbedUrls m.embeds).isEmpty) = false)
    (htgt : env.targetOk = false) :
    messageCreate cfg env st m = (st, [Action.fetchTarget]) := by
  simp [messageCreate, hbot, hsrc, himg, htgt]

theorem messageUpdate_zero_entry_notarget (cfg : Config) (env : FetchEnv) (st : Ledger)
    (m : Msg) (fid : String)
    (hsrc : isSourceChannel cfg m.channelId = true)
    (himg : ((m.attachments.filter isImageAttachment).isEmpty &&
      (extractEmbedUrls m.embeds).isEmpty) = true)
    (hfwd : lget st m.id = some fid)
    (htgt : env.targetOk = false) :
    messageUpdate cfg env st m = (st, [Action.fetchTarget]) := by
  simp [messageUpdate, hsrc, himg, hfwd, htgt]

theorem messageUpdate_images_notarget (cfg : Config) (env : FetchEnv) (st : Ledger)
    (m : Msg)
    (hsrc : isSourceChannel cfg m.channelId = true)
    (himg : ((m.attachments.filter isImageAttachment).isEmpty &&
      (extractEmbedUrls m.embeds).isEmpty) = false)
    (htgt : env.targetOk = false) :
    messageUpdate cfg env st m =
      (st, (makeFilesFromUrls cfg env (candidateUrls m) (candidateNames m)).2 ++
        [Action.fetchTarget]) := by
  simp [messageUpdate, hsrc, himg, htgt]

theorem messageDelete_entry_notarget (cfg : Config) (env : FetchEnv) (st : Ledger)
    (m : Msg) (fid : String)
    (hfwd : lget st m.id = some fid)
    (htgt : env.targetOk = false) :
    messageDelete cfg env st m = (st, [Action.fetchTarget]) := by
  simp [messageDelete, hfwd, htgt]

theorem messageDelete_noentry (cfg : Config) (env : FetchEnv) (st : Ledger) (m : Msg)
    (hfwd : lget st m.id = none) :
    messageDelete cfg env st m = (st, []) := by
  simp [messageDelete, hfwd]

theorem messageDelete_entry (cfg : Config) (env : FetchEnv) (st : Ledger) (m : Msg)
    (fid : String)
    (hfwd : lget st m.id = some fid)
    (htgt : env.targetOk = true) :
    messageDelete cfg env st m =
      (ldel st m.id,
        Action.fetchTarget :: Action.fetchMirror fid env.mirrorFound ::
          (if env.mirrorFound then [Action.deleteMirror fid] else [])) := by
  simp [messageDelete, hfwd, htgt]

theorem step_key_origin (cfg : Config) (env : FetchEnv) (st : Ledger) (e : Event)
    (k : String) (h : lget (step cfg env st e).1 k ≠ none) :
    lget st k ≠ none ∨
      ((Event.msg e).id = k ∧ isSourceChannel cfg (Event.msg e).channelId = true) := by
  cases e with
  | create m =>
    simp only [step] at h
    by_cases hb : authorIsBot m
    · rw [messageCreate_noop_bot cfg env st m hb] at h; exact Or.inl h
    · by_cases hs : isSourceChannel cfg m.channelId
      · by_cases hi : ((m.attachments.filter isImageAttachment).isEmpty &&
          (extractEmbedUrls m.embeds).isEmpty)
        · rw [messageCreate_noop_noimages cfg env st m hi] at h; exact Or.inl h
        · by_cases ht : env.targetOk
          · rw [messageCreate_eq cfg env st m (by simp [hb]) (by simp [hs])
              (by simp [hi]) ht] at h
            rw [lget_lset] at h
            by_cases hk : k = m.id
            · exact Or.inr ⟨hk.symm, hs⟩
            · rw [if_neg hk] at h; exact Or.inl h
          · rw [messageCreate_notarget cfg env st m (by simp [hb]) (by simp [hs])
              (by simp [hi]) (by simp [ht])] at h
            exact Or.inl h
      · rw [messageCreate_noop_nonsource cfg env st m (by simp [hs])] at h
        exact Or.inl h
  | update m =>
    simp only [step] at h
    by_cases hs : isSourceChannel cfg m.channelId
    · by_cases hi : ((m.attachments.filter isImageAttachment).isEmpty &&
        (extractEmbedUrls m.embeds).isEmpty)
      · cases hf : lget st m.id with
        | none =>
          rw [messageUpdate_zero_noentry cfg env st m hi hf] at h; exact Or.inl h
        | some fid =>
          by_cases ht : env.targetOk
          · rw [messageUpdate_zero_entry cfg env st m fid (by simp [hs]) hi hf ht] at h
            rw [lget_ldel] at h
            by_cases hk : k = m.id
            · rw [if_pos hk] at h; exact absurd rfl h
            · rw [if_neg hk] at h; exact Or.inl h
          · rw [messageUpdate_zero_entry_notarget cfg env st m fid (by simp [hs]) hi hf
              (by simp [ht])] at h
            exact Or.inl h
      · by_cases ht : env.targetOk
        · cases hf : lget st m.id with
          | none =>
            rw [messageUpdate_deferred cfg env st m (by simp [hs]) (by simp [hi]) hf ht] at h
            rw [lget_lset] at h
            by_cases hk : k = m.id
            · exact Or.inr ⟨hk.symm, hs⟩
            · rw [if_neg hk] at h; exact Or.inl h
          | some fid =>
            rw [messageUpdate_replace cfg env st m fid (by simp [hs]) (by simp [hi]) hf ht] at h
            rw [lget_lset] at h
            by_cases hk : k = m.id
            · exact Or.inr ⟨hk.symm, hs⟩
            · rw [if_neg hk] at h; exact Or.inl h
        · rw [messageUpdate_images_notarget cfg env st m (by simp [hs]) (by simp [hi])
            (by simp [ht])] at h
          exact Or.inl h
    · rw [messageUpdate_noop_nonsource cfg env st m (by simp [hs])] at h
      exact Or.inl h
  | delete m =>
    simp only [step] at h
    cases hf : lget st m.id with
    | none => rw [messageDelete_noentry cfg env st m hf] at h; exact Or.inl h
    | some fid =>
      by_cases ht : env.targetOk
      · rw [messageDelete_entry cfg env st m fid hf ht] at h
        rw [lget_ldel] at h
        by_cases hk : k = m.id
        · rw [if_pos hk] at h; exact absurd rfl h
        · rw [if_neg hk] at h; exact Or.inl h
      · rw [messageDelete_entry_notarget cfg env st m fid hf (by simp [ht])] at h
        exact Or.inl h

theorem runTrace_key_origin (cfg : Config) :
    ∀ (evs : List (FetchEnv × Event)) (st0 : Ledger) (k : String),
      lget (runTrace cfg st0 evs) k ≠ none →
      lget st0 k ≠ none ∨
        ∃ p ∈ evs, (Event.msg p.2).id = k ∧
          isSourceChannel cfg (Event.msg p.2).channelId = true := by
  intro evs
  induction evs with
  | nil => intro st0 k h; exact Or.inl h
  | cons p rest ih =>
    intro st0 k h
    have h' := ih ((step cfg p.1 st0 p.2).1) k (by simpa [runTrace] using h)
    cases h' with
    | inl hkey =>
      cases step_key_origin cfg p.1 st0 p.2 k hkey with
      | inl h0 => exact Or.inl h0
      | inr hev => exact Or.inr ⟨p, List.mem_cons_self p rest, hev⟩
    | inr hex =>
      rcases hex with ⟨q, hq, hfact⟩
      exact Or.inr ⟨q, List.mem_cons_of_mem p hq, hfact⟩

theorem countSends_append (a b : List Action) :
    countSends (a ++ b) = countSends a + countSends b := by
  simp [countSends, List.filter_append]

theorem countDeletes_append (a b : List Action) :
    countDeletes (a ++ b) = countDeletes a + countDeletes b := by
  simp [countDeletes, List.filter_append]

theorem attemptsOf_append (a b : List Action) :
    attemptsOf (a ++ b) = attemptsOf a ++ attemptsOf b := by
  simp [attemptsOf, List.filterMap_append]

theorem makeFiles_files_nil (cfg : Config) (env : FetchEnv)
    (urls : List String) (fbs : List (Option String))
    (hfail : ∀ u ∈ urls, env.download u = none) :
    (makeFilesFromUrls cfg env urls fbs).1 = [] := by
  rw [makeFiles_files, List.filterMap_eq_nil_iff]
  intro c hc
  have hmem : c.1 ∈ urls := by
    have hfst := candList_fst urls fbs
    exact hfst ▸ List.mem_map_of_mem Prod.fst hc
  simp [fileOfCandidate, hfail c.1 hmem]

theorem makeFiles_delay_ms (cfg : Config) (env : FetchEnv) :
    ∀ (urls : List String) (fbs : List (Option String)) (ms : Nat),
      Action.delayA ms ∈ (makeFilesFromUrls cfg env urls fbs).2 →
      ms = cfg.uploadDelayMs := by
  intro urls
  induction urls with
  | nil => intro fbs ms h; simp [makeFilesFromUrls] at h
  | cons u us ih =>
    intro fbs ms h
    cases hd : env.download u with
    | none =>
      rw [makeFilesFromUrls, hd] at h
      simp at h
      exact ih fbs.tail ms h
    | some d =>
      by_cases hs : d.size > cfg.maxUploadBytes
      · rw [makeFilesFromUrls, hd] at h
        simp [hs] at h
        exact ih fbs.tail ms h
      · rw [makeFilesFromUrls, hd] at h
        simp [hs] at h
        rcases h with h | h
        · exact h
        · exact ih fbs.tail ms h

theorem candidateUrls_ne_nil (m : Msg)
    (himg : ((m.attachments.filter isImageAttachment).isEmpty &&
      (extractEmbedUrls m.embeds).isEmpty) = false) :
    candidateUrls m ≠ [] := by
  intro hnil
  rcases List.append_eq_nil.mp hnil with ⟨h1, h2⟩
  have ha : (m.attachments.filter isImageAttachment).isEmpty = true := by
    rw [List.isEmpty_iff]
    exact List.map_eq_nil_iff.mp h1
  have hb : (extractEmbedUrls m.embeds).isEmpty = true := by
    rw [List.isEmpty_iff]; exact h2
  rw [ha, hb] at himg
  simp at himg

/-- Sample configuration: one source channel `src`, target `tgt`. -/
def cfgS : Config := ⟨["src"], "tgt", 8388608, 800⟩

/-- Sample environment where the url `a` fails to download and every other
url succeeds with a small payload. -/
def envFailA : FetchEnv :=
  ⟨fun u => if u = "a" then none else some ⟨10, "pic.png"⟩, true, true, "m2"⟩

/-- Sample environment where every download fails. -/
def envFailAll : FetchEnv := ⟨fun _ => none, true, true, "m2"⟩

/-- Sample environment where every download succeeds with a small payload. -/
def envOkAll : FetchEnv := ⟨fun _ => some ⟨10, "pic.png"⟩, true, true, "m2"⟩

/-- Sample origin message with one image attachment, in the source channel. -/
def msgS : Msg :=
  ⟨"o1", some "src", some ⟨some "alice#0001", some "alice", false⟩, none,
    [⟨some "image/png", some "cat.png", "u1"⟩], []⟩

/-- Sample message in a channel outside the source set. -/
def msgX : Msg :=
  ⟨"o9", some "other", some ⟨some "bob#0001", some "bob", false⟩, none,
    [⟨some "image/png", some "dog.png", "u9"⟩], []⟩

/-- Sample message with no image content, in the source channel. -/
def msgNoImg : Msg :=
  ⟨"o1", some "src", some ⟨some "alice#0001", some "alice", false⟩, none, [], []⟩

/-- Sample bot-authored message with an image attachment, in the source
channel. -/
def msgBot : Msg :=
  ⟨"o2", some "src", some ⟨some "hook#0001", some "hook", true⟩, none,
    [⟨some "image/png", some "b.png", "u2"⟩], []⟩

theorem countSends_cons (a : Action) (l : List Action) :
    countSends (a :: l) = (if isSend a then 1 else 0) + countSends l := by
  by_cases h : isSend a <;> simp [countSends, List.filter_cons, h, Nat.add_comm]

theorem countDeletes_cons (a : Action) (l : List Action) :
    countDeletes (a :: l) = (if isDeleteMirror a then 1 else 0) + countDeletes l := by
  by_cases h : isDeleteMirror a <;> simp [countDeletes, List.filter_cons, h, Nat.add_comm]

/-- C2 counterexample: with two candidates where the first download fails,
the fetch loop starts the second retrieval with no delay after the skipped
first candidate, so the claim that every successful or skipped fetch is
followed by the configured delay is false on the code (both candidates are
still attempted, as the second conjunct records). -/
theorem delay_after_skip_refuted :
    allGapsDelayed (makeFilesFromUrls cfgS envFailA ["a", "b"] [none, none]).2 = false ∧
    attemptsOf (makeFilesFromUrls cfgS envFailA ["a", "b"] [none, none]).2 = ["a", "b"] := by
  decide

/-- C2 (amended): in the content-fetch loop the configured delay is waited
exactly after each successfully fetched and accepted candidate, immediately
before the next candidate's retrieval; skipped candidates (failed download
or oversized payload) proceed to the next retrieval with no delay.  Every
delay in the trace is the configured `uploadDelayMs` (default 800). -/
theorem delay_only_after_accepted (cfg : Config) (env : FetchEnv)
    (urls : List String) (fbs : List (Option String)) :
    delayOnlyAfterAccept (makeFilesFromUrls cfg env urls fbs).2 = true ∧
    ∀ ms, Action.delayA ms ∈ (makeFilesFromUrls cfg env urls fbs).2 →
      ms = cfg.uploadDelayMs :=
  ⟨makeFiles_delayOnly cfg env urls fbs,
    fun ms h => makeFiles_delay_ms cfg env urls fbs ms h⟩

/-- C2 witness: concrete instance of the amended pacing theorem, with the
inner hypothesis discharged on the delay the trace actually contains. -/
theorem delay_only_after_accepted_witness :
    delayOnlyAfterAccept (makeFilesFromUrls cfgS envFailA ["a", "b"] [none, none]).2 = true ∧
    (800 : Nat) = cfgS.uploadDelayMs :=
  ⟨(delay_only_after_accepted cfgS envFailA ["a", "b"] [none, none]).1,
    (delay_only_after_accepted cfgS envFailA ["a", "b"] [none, none]).2 800 (by decide)⟩

/-- C7: the delete path is idempotent: a delete event whose origin id has no
ledger entry performs no actions and leaves the ledger unchanged, and after
any delete event that completed (its target-channel fetch succeeded), a
second delete event for the same origin id is such a no-op whatever its own
environment. -/
theorem delete_idempotent (cfg : Config) (env env2 : FetchEnv) (st : Ledger) (m : Msg) :
    (lget st m.id = none → messageDelete cfg env st m = (st, [])) ∧
    (env.targetOk = true →
      messageDelete cfg env2 (messageDelete cfg env st m).1 m =
        ((messageDelete cfg env st m).1, [])) := by
  constructor
  · exact messageDelete_noentry cfg env st m
  · intro ht
    cases hf : lget st m.id with
    | none =>
      rw [messageDelete_noentry cfg env st m hf]
      exact messageDelete_noentry cfg env2 st m hf
    | some fid =>
      rw [messageDelete_entry cfg env st m fid hf ht]
      exact messageDelete_noentry cfg env2 (ldel st m.id) m (lget_ldel_self st m.id)

/-- C7 witness: deleting `o1` twice from a ledger holding it: the second
delete is a no-op; and a delete on an absent id is a no-op. -/
theorem delete_idempotent_witness :
    messageDelete cfgS envOkAll [] msgS = ([], []) ∧
    messageDelete cfgS envOkAll (messageDelete cfgS envOkAll [("o1", "f1")] msgS).1 msgS =
      ((messageDelete cfgS envOkAll [("o1", "f1")] msgS).1, []) :=
  ⟨(delete_idempotent cfgS envOkAll envOkAll [] msgS).1 (by decide),
    (delete_idempotent cfgS envOkAll envOkAll [("o1", "f1")] msgS).2 (by decide)⟩

/-- C8: the fetched file list is exactly the in-order sublist of candidates
whose download succeeded within the size bound (so an oversized payload is
excluded), every candidate is still attempted (the loop never aborts), and
the result is never longer than the candidate list. -/
theorem oversized_skipped (cfg : Config) (env : FetchEnv)
    (urls : List String) (fbs : List (Option String)) :
    (makeFilesFromUrls cfg env urls fbs).1 =
      (candList urls fbs).filterMap (fileOfCandidate cfg env) ∧
    attemptsOf (makeFilesFromUrls cfg env urls fbs).2 = urls ∧
    (makeFilesFromUrls cfg env urls fbs).1.length ≤ urls.length ∧
    (∀ c ∈ candList urls fbs, ∀ d, env.download c.1 = some d →
      d.size > cfg.maxUploadBytes → fileOfCandidate cfg env c = none) := by
  refine ⟨makeFiles_files cfg env urls fbs, makeFiles_attempts cfg env urls fbs, ?_, ?_⟩
  · rw [makeFiles_files cfg env urls fbs]
    calc ((candList urls fbs).filterMap (fileOfCandidate cfg env)).length
        ≤ (candList urls fbs).length := List.length_filterMap_le _ _
      _ = urls.length := candList_length urls fbs
  · intro c _ d hd hs
    simp [fileOfCandidate, hd, hs]

/-- C8 witness: a 9 MB payload among two small ones is excluded while the
other candidates are fetched and kept, and all three are attempted. -/
theorem oversized_skipped_witness :
    (makeFilesFromUrls cfgS
        ⟨fun u => if u = "big" then some ⟨9000000, "big.png"⟩ else some ⟨10, "pic.png"⟩,
          true, true, "m2"⟩ ["x", "big", "y"] [none, none, none]).1 =
      [⟨10, "pic.png"⟩, ⟨10, "pic.png"⟩] ∧
    attemptsOf (makeFilesFromUrls cfgS
        ⟨fun u => if u = "big" then some ⟨9000000, "big.png"⟩ else some ⟨10, "pic.png"⟩,
          true, true, "m2"⟩ ["x", "big", "y"] [none, none, none]).2 = ["x", "big", "y"] :=
  ⟨((oversized_skipped cfgS
      ⟨fun u => if u = "big" then some ⟨9000000, "big.png"⟩ else some ⟨10, "pic.png"⟩,
        true, true, "m2"⟩ ["x", "big", "y"] [none, none, none]).1).trans (by decide),
    (oversized_skipped cfgS
      ⟨fun u => if u = "big" then some ⟨9000000, "big.png"⟩ else some ⟨10, "pic.png"⟩,
        true, true, "m2"⟩ ["x", "big", "y"] [none, none, none]).2.1⟩

/-- C9: every outbound filename comes from sanitizing the caller-supplied
fallback name (when present, otherwise the downloader-derived name):
disallowed characters are replaced by an underscore and the result is cut to
120 characters, so it only contains characters from the allowed class and
has length at most 120. -/
theorem filenames_sanitized (cfg : Config) (env : FetchEnv)
    (urls : List String) (fbs : List (Option String)) (f : OutFile)
    (hf : f ∈ (makeFilesFromUrls cfg env urls fbs).1) :
    (∃ c d, c ∈ candList urls fbs ∧ env.download c.1 = some d ∧
      f.name = sanitizeName (c.2.getD d.name)) ∧
    f.name.length ≤ 120 ∧
    f.name.data.all isAllowedChar = true := by
  rw [makeFiles_files cfg env urls fbs] at hf
  rcases List.mem_filterMap.mp hf with ⟨c, hc, hfc⟩
  cases hd : env.download c.1 with
  | none => rw [fileOfCandidate, hd] at hfc; exact absurd hfc (by simp)
  | some d =>
    by_cases hs : d.size > cfg.maxUploadBytes
    · rw [fileOfCandidate, hd] at hfc
      simp [hs] at hfc
    · rw [fileOfCandidate, hd] at hfc
      simp only [hs, if_false, Option.some_inj] at hfc
      have hname : f.name = sanitizeName (c.2.getD d.name) := by
        rw [← hfc]
      refine ⟨⟨c, d, hc, hd, hname⟩, ?_, ?_⟩
      · rw [hname]; exact sanitizeName_length _
      · rw [hname]; exact sanitizeName_allowed _

/-- C9 witness: an attachment fallback name with spaces and a slash is
rewritten to underscores; the theorem applies to the produced file. -/
theorem filenames_sanitized_witness :
    (⟨10, "we_ird_na_me.png"⟩ : OutFile) ∈
      (makeFilesFromUrls cfgS envOkAll ["u"] [some "we ird/na me.png"]).1 ∧
    (⟨10, "we_ird_na_me.png"⟩ : OutFile).name.data.all isAllowedChar = true :=
  ⟨by decide,
    (filenames_sanitized cfgS envOkAll ["u"] [some "we ird/na me.png"]
      ⟨10, "we_ird_na_me.png"⟩ (by decide)).2.2⟩

/-- C4: after a create event that completes (non-bot author, source channel,
image content present, target resolved), the ledger maps the origin id to
exactly the id the bus assigned to the sent message, and that send appears
in the event's actions; after a delete path that completes on an existing
entry, the ledger lookup for that origin id is absent. -/
theorem ledger_lookup_consistency (cfg : Config) (env : FetchEnv) (st : Ledger) (m : Msg)
    (hbot : authorIsBot m = false)
    (hsrc : isSourceChannel cfg m.channelId = true)
    (himg : ((m.attachments.filter isImageAttachment).isEmpty &&
      (extractEmbedUrls m.embeds).isEmpty) = false)
    (htgt : env.targetOk = true) :
    (lget (messageCreate cfg env st m).1 m.id = some env.newId ∧
      ∃ c, Action.send c
        (makeFilesFromUrls cfg env (candidateUrls m) (candidateNames m)).1 env.newId ∈
        (messageCreate cfg env st m).2) ∧
    (∀ (env2 : FetchEnv) (st2 : Ledger) (m2 : Msg) (fid : String),
      lget st2 m2.id = some fid → env2.targetOk = true →
      lget (messageDelete cfg env2 st2 m2).1 m2.id = none) := by
  refine ⟨⟨?_, ?_⟩, ?_⟩
  · rw [messageCreate_eq cfg env st m hbot hsrc himg htgt]
    exact lget_lset_self st m.id env.newId
  · rw [messageCreate_eq cfg env st m hbot hsrc himg htgt]
    refine ⟨(if (makeFilesFromUrls cfg env (candidateUrls m) (candidateNames m)).1.isEmpty
      then headerFor m false ++ "\n" ++ String.intercalate "\n" (candidateUrls m)
      else headerFor m false), ?_⟩
    exact List.mem_cons_of_mem _ (List.mem_append_right _ (List.mem_singleton.mpr rfl))
  · intro env2 st2 m2 fid hfwd htgt2
    rw [messageDelete_entry cfg env2 st2 m2 fid hfwd htgt2]
    exact lget_ldel_self st2 m2.id

/-- C4 witness: a concrete create then a concrete delete, with the ledger
lookups evaluated. -/
theorem ledger_lookup_consistency_witness :
    lget (messageCreate cfgS envOkAll [] msgS).1 msgS.id = some envOkAll.newId ∧
    lget (messageDelete cfgS envOkAll [("o1", "f1")] msgS).1 msgS.id = none :=
  ⟨((ledger_lookup_consistency cfgS envOkAll [] msgS (by decide) (by decide)
      (by decide) (by decide)).1).1,
    (ledger_lookup_consistency cfgS envOkAll [] msgS (by decide) (by decide)
      (by decide) (by decide)).2 envOkAll [("o1", "f1")] msgS "f1" (by decide) (by decide)⟩

/-- C5: an update event in a source channel whose current content has no
image attachment and no qualifying embed image deletes the mirror exactly
once on the target, sends nothing, and removes the ledger entry, when an
entry exists and the target and mirror resolve; with no ledger entry the
event is a pure no-op. -/
theorem update_zero_images_removes (cfg : Config) (env : FetchEnv) (st : Ledger) (m : Msg)
    (hsrc : isSourceChannel cfg m.channelId = true)
    (himg : ((m.attachments.filter isImageAttachment).isEmpty &&
      (extractEmbedUrls m.embeds).isEmpty) = true) :
    (∀ fid, lget st m.id = some fid → env.targetOk = true → env.mirrorFound = true →
      messageUpdate cfg env st m =
        (ldel st m.id,
          [Action.fetchTarget, Action.fetchMirror fid true, Action.deleteMirror fid]) ∧
      countDeletes (messageUpdate cfg env st m).2 = 1 ∧
      countSends (messageUpdate cfg env st m).2 = 0 ∧
      lget (messageUpdate cfg env st m).1 m.id = none) ∧
    (lget st m.id = none → messageUpdate cfg env st m = (st, [])) := by
  constructor
  · intro fid hfwd htgt hmir
    have heq := messageUpdate_zero_entry cfg env st m fid hsrc himg hfwd htgt
    rw [hmir] at heq
    simp only [if_true] at heq
    refine ⟨heq, ?_, ?_, ?_⟩
    · rw [heq]; rfl
    · rw [heq]; rfl
    · rw [heq]; exact lget_ldel_self st m.id
  · intro hfwd
    exact messageUpdate_zero_noentry cfg env st m himg hfwd

/-- C5 witness: a source-channel update of `o1` with no images, ledger entry
`f1` present, performs the single delete and removes the entry; on an empty
ledger it is a no-op. -/
theorem update_zero_images_removes_witness :
    messageUpdate cfgS envOkAll [("o1", "f1")] msgNoImg =
      ([], [Action.fetchTarget, Action.fetchMirror "f1" true, Action.deleteMirror "f1"]) ∧
    messageUpdate cfgS envOkAll [] msgNoImg = ([], []) :=
  ⟨by
      have h := ((update_zero_images_removes cfgS envOkAll [("o1", "f1")] msgNoImg
        (by decide) (by decide)).1 "f1" (by decide) (by decide) (by decide)).1
      simpa using h,
    (update_zero_images_removes cfgS envOkAll [] msgNoImg
      (by decide) (by decide)).2 (by decide)⟩

/-- C6: on the create path, when every candidate download fails the file
list is empty yet the engine still sends exactly one message, containing
the header followed by the raw candidate URLs joined by newlines, and
records the sent mirror id in the ledger; the candidate list itself is
non-empty. -/
theorem create_fallback_to_text (cfg : Config) (env : FetchEnv) (st : Ledger) (m : Msg)
    (hbot : authorIsBot m = false)
    (hsrc : isSourceChannel cfg m.channelId = true)
    (himg : ((m.attachments.filter isImageAttachment).isEmpty &&
      (extractEmbedUrls m.embeds).isEmpty) = false)
    (htgt : env.targetOk = true)
    (hfail : ∀ u ∈ candidateUrls m, env.download u = none) :
    messageCreate cfg env st m =
      (lset st m.id env.newId,
        Action.fetchTarget ::
          (makeFilesFromUrls cfg env (candidateUrls m) (candidateNames m)).2 ++
          [Action.send
            (headerFor m false ++ "\n" ++ String.intercalate "\n" (candidateUrls m))
            [] env.newId]) ∧
    countSends (messageCreate cfg env st m).2 = 1 ∧
    candidateUrls m ≠ [] ∧
    lget (messageCreate cfg env st m).1 m.id = some env.newId := by
  have hnil := makeFiles_files_nil cfg env (candidateUrls m) (candidateNames m) hfail
  have heq := messageCreate_eq cfg env st m hbot hsrc himg htgt
  rw [hnil] at heq
  simp only [List.isEmpty_nil, if_true] at heq
  refine ⟨heq, ?_, candidateUrls_ne_nil m himg, ?_⟩
  · rw [heq]
    show countSends (Action.fetchTarget ::
      ((makeFilesFromUrls cfg env (candidateUrls m) (candidateNames m)).2 ++
        [Action.send _ [] env.newId])) = 1
    rw [countSends_cons, countSends_append,
      makeFiles_countSends cfg env (candidateUrls m) (candidateNames m)]
    rfl
  · rw [heq]
    exact lget_lset_self st m.id env.newId

/-- C1 counterexample: a source-channel update of an origin with a ledger
entry and an image attachment satisfies the claim's premises (first two
conjuncts), yet a download attempt occurs before the target-side delete, so
the claimed sequence delete-then-fetch-then-send is false on the code; the
delete does happen exactly once (last conjunct). -/
theorem update_replace_claimed_order_refuted :
    lget [("o1", "f1")] msgS.id = some "f1" ∧
    ((msgS.attachments.filter isImageAttachment).isEmpty &&
      (extractEmbedUrls msgS.embeds).isEmpty) = false ∧
    noAttemptBeforeDelete (messageUpdate cfgS envOkAll [("o1", "f1")] msgS).2 = false ∧
    countDeletes (messageUpdate cfgS envOkAll [("o1", "f1")] msgS).2 = 1 := by
  decide

/-- C1 (amended): on an update of a source-channel message that still has
images and whose origin id has a ledger entry (with target and old mirror
resolving), the engine first fetches the current images, then deletes the
old mirror, then sends exactly one replacement — one delete and one send on
the target, delete before send — with an "(edited)"-suffixed header, and
sets the ledger entry to the newly sent mirror id. -/
theorem update_replace_fetch_delete_send (cfg : Config) (env : FetchEnv) (st : Ledger)
    (m : Msg) (fid : String)
    (hsrc : isSourceChannel cfg m.channelId = true)
    (himg : ((m.attachments.filter isImageAttachment).isEmpty &&
      (extractEmbedUrls m.embeds).isEmpty) = false)
    (hfwd : lget st m.id = some fid)
    (htgt : env.targetOk = true)
    (hmir : env.mirrorFound = true) :
    ∃ (P : List Action) (content : String),
      messageUpdate cfg env st m =
        (lset st m.id env.newId,
          P ++ [Action.deleteMirror fid,
            Action.send content
              (makeFilesFromUrls cfg env (candidateUrls m) (candidateNames m)).1
              env.newId]) ∧
      countDeletes P = 0 ∧
      countSends P = 0 ∧
      attemptsOf P = candidateUrls m ∧
      countDeletes (messageUpdate cfg env st m).2 = 1 ∧
      countSends (messageUpdate cfg env st m).2 = 1 ∧
      (content = headerFor m true ∨
        content = headerFor m true ++ "\n" ++
          String.intercalate "\n" (candidateUrls m)) ∧
      strEndsWith (headerFor m true) " (edited)" = true ∧
      lget (messageUpdate cfg env st m).1 m.id = some env.newId := by
  have heq := messageUpdate_replace cfg env st m fid hsrc himg hfwd htgt
  rw [hmir] at heq
  simp only [if_true] at heq
  have hPd : countDeletes
      ((makeFilesFromUrls cfg env (candidateUrls m) (candidateNames m)).2 ++
        [Action.fetchTarget, Action.fetchMirror fid true]) = 0 := by
    rw [countDeletes_append,
      makeFiles_countDeletes cfg env (candidateUrls m) (candidateNames m)]
    rfl
  have hPs : countSends
      ((makeFilesFromUrls cfg env (candidateUrls m) (candidateNames m)).2 ++
        [Action.fetchTarget, Action.fetchMirror fid true]) = 0 := by
    rw [countSends_append,
      makeFiles_countSends cfg env (candidateUrls m) (candidateNames m)]
    rfl
  have htr : messageUpdate cfg env st m =
      (lset st m.id env.newId,
        ((makeFilesFromUrls cfg env (candidateUrls m) (candidateNames m)).2 ++
          [Action.fetchTarget, Action.fetchMirror fid true]) ++
          [Action.deleteMirror fid,
            Action.send
              (if (makeFilesFromUrls cfg env (candidateUrls m) (candidateNames m)).1.isEmpty
                then headerFor m true ++ "\n" ++ String.intercalate "\n" (candidateUrls m)
                else headerFor m true)
              (makeFilesFromUrls cfg env (candidateUrls m) (candidateNames m)).1
              env.newId]) := by
    rw [heq]
    simp
  refine ⟨(makeFilesFromUrls cfg env (candidateUrls m) (candidateNames m)).2 ++
      [Action.fetchTarget, Action.fetchMirror fid true],
    (if (makeFilesFromUrls cfg env (candidateUrls m) (candidateNames m)).1.isEmpty
      then headerFor m true ++ "\n" ++ String.intercalate "\n" (candidateUrls m)
      else headerFor m true),
    htr, hPd, hPs, ?_, ?_, ?_, ?_, headerFor_edited_suffix m, ?_⟩
  · rw [attemptsOf_append,
      makeFiles_attempts cfg env (candidateUrls m) (candidateNames m)]
    simp [attemptsOf]
  · rw [htr]
    show countDeletes (_ ++ [Action.deleteMirror fid, Action.send _ _ env.newId]) = 1
    rw [countDeletes_append, hPd]
    rfl
  · rw [htr]
    show countSends (_ ++ [Action.deleteMirror fid, Action.send _ _ env.newId]) = 1
    rw [countSends_append, hPs]
    rfl
  · by_cases hf :
      (makeFilesFromUrls cfg env (candidateUrls m) (candidateNames m)).1.isEmpty
    · exact Or.inr (by rw [if_pos hf])
    · exact Or.inl (by rw [if_neg hf])
  · rw [htr]
    exact lget_lset_self st m.id env.newId

/-- C1 witness: concrete replace on origin `o1` with mirror `f1`: the
amended order and ledger update, instantiated and evaluated. -/
theorem update_replace_fetch_delete_send_witness :
    lget [("o1", "f1")] msgS.id = some "f1" ∧
    ∃ (P : List Action) (content : String),
      messageUpdate cfgS envOkAll [("o1", "f1")] msgS =
        (lset [("o1", "f1")] msgS.id envOkAll.newId,
          P ++ [Action.deleteMirror "f1",
            Action.send content
              (makeFilesFromUrls cfgS envOkAll (candidateUrls msgS) (candidateNames msgS)).1
              envOkAll.newId]) ∧
      countDeletes P = 0 ∧
      countSends P = 0 ∧
      attemptsOf P = candidateUrls msgS ∧
      countDeletes (messageUpdate cfgS envOkAll [("o1", "f1")] msgS).2 = 1 ∧
      countSends (messageUpdate cfgS envOkAll [("o1", "f1")] msgS).2 = 1 ∧
      (content = headerFor msgS true ∨
        content = headerFor msgS true ++ "\n" ++
          String.intercalate "\n" (candidateUrls msgS)) ∧
      strEndsWith (headerFor msgS true) " (edited)" = true ∧
      lget (messageUpdate cfgS envOkAll [("o1", "f1")] msgS).1 msgS.id =
        some envOkAll.newId :=
  ⟨by decide,
    update_replace_fetch_delete_send cfgS envOkAll [("o1", "f1")] msgS "f1"
      (by decide) (by decide) (by decide) (by decide) (by decide)⟩

/-- C3: events for a message whose channel is outside the configured source
set are pure no-ops in every reachable ledger state: no action is emitted
and the ledger is unchanged.  Reachability is over event sequences in which
any earlier event for the same message id carries the same channel (a
message lives in one channel), which is what makes the channel-agnostic
delete handler a no-op here: only source-channel events ever create ledger
entries. -/
theorem nonsource_event_noop (cfg : Config) (evs : List (FetchEnv × Event))
    (env : FetchEnv) (e : Event)
    (hchan : isSourceChannel cfg (Event.msg e).channelId = false)
    (hcons : ∀ p ∈ evs, (Event.msg p.2).id = (Event.msg e).id →
      (Event.msg p.2).channelId = (Event.msg e).channelId) :
    step cfg env (runTrace cfg [] evs) e = (runTrace cfg [] evs, []) := by
  cases e with
  | create m =>
    exact messageCreate_noop_nonsource cfg env _ m hchan
  | update m =>
    exact messageUpdate_noop_nonsource cfg env _ m hchan
  | delete m =>
    have hnone : lget (runTrace cfg [] evs) m.id = none := by
      by_contra hne
      cases runTrace_key_origin cfg evs [] m.id hne with
      | inl h0 => exact h0 rfl
      | inr hex =>
        rcases hex with ⟨p, hp, hid, hsrcp⟩
        rw [hcons p hp hid] at hsrcp
        rw [hchan] at hsrcp
        exact Bool.false_ne_true hsrcp
    exact messageDelete_noentry cfg env _ m hnone

/-- C3 witness: after a create in the source channel, a delete event for a
message in another channel is a no-op on the reached state. -/
theorem nonsource_event_noop_witness :
    isSourceChannel cfgS (Event.msg (Event.delete msgX)).channelId = false ∧
    step cfgS envOkAll (runTrace cfgS [] [(envOkAll, Event.create msgS)])
        (Event.delete msgX) =
      (runTrace cfgS [] [(envOkAll, Event.create msgS)], []) :=
  ⟨by decide,
    nonsource_event_noop cfgS [(envOkAll, Event.create msgS)] envOkAll
      (Event.delete msgX) (by decide) (by decide)⟩

/-- Replace a message's author record, varying only the bot flag. -/
def setBot (m : Msg) (a : Author) (b : Bool) : Msg :=
  { m with author := some { a with bot := b } }

theorem messageUpdate_congr (cfg : Config) (env : FetchEnv) (st : Ledger) (m1 m2 : Msg)
    (hid : m1.id = m2.id) (hch : m1.channelId = m2.channelId)
    (hatt : m1.attachments = m2.attachments) (hemb : m1.embeds = m2.embeds)
    (htag : safeAuthorTag m1 = safeAuthorTag m2) :
    messageUpdate cfg env st m1 = messageUpdate cfg env st m2 := by
  simp only [messageUpdate, candidateUrls, candidateNames, headerFor, safeChannelRef,
    hid, hch, hatt, hemb, htag]

/-- C10: a create event by any bot-flagged author returns immediately (no
action, ledger unchanged), while the update handler performs no such check:
its entire result is invariant under the author's bot flag. -/
theorem bot_check_create_only (cfg : Config) (env env2 : FetchEnv) (st st2 : Ledger)
    (m m2 : Msg) (a : Author) (b1 b2 : Bool)
    (hbot : authorIsBot m = true) :
    messageCreate cfg env st m = (st, []) ∧
    messageUpdate cfg env2 st2 (setBot m2 a b1) =
      messageUpdate cfg env2 st2 (setBot m2 a b2) := by
  refine ⟨messageCreate_noop_bot cfg env st m hbot, ?_⟩
  exact messageUpdate_congr cfg env2 st2 _ _ rfl rfl rfl rfl rfl

/-- C10 witness: the bot-authored message `msgBot` is dropped by the create
handler, while the update handler processes it all the same (one send) and
its result does not depend on the bot flag. -/
theorem bot_check_create_only_witness :
    messageCreate cfgS envOkAll [] msgBot = ([], []) ∧
    messageUpdate cfgS envOkAll []
        (setBot msgS ⟨some "alice#0001", some "alice", false⟩ true) =
      messageUpdate cfgS envOkAll []
        (setBot msgS ⟨some "alice#0001", some "alice", false⟩ false) ∧
    countSends (messageUpdate cfgS envOkAll [] msgBot).2 = 1 :=
  ⟨(bot_check_create_only cfgS envOkAll envOkAll [] [] msgBot msgS
      ⟨some "alice#0001", some "alice", false⟩ true false (by decide)).1,
    (bot_check_create_only cfgS envOkAll envOkAll [] [] msgBot msgS
      ⟨some "alice#0001", some "alice", false⟩ true false (by decide)).2,
    by decide⟩

/-- C6 witness: all downloads fail for a one-attachment message; the single
send carries the header plus the raw url as text and the ledger records the
new mirror id. -/
theorem create_fallback_to_text_witness :
    messageCreate cfgS envFailAll [] msgS =
      ([("o1", "m2")],
        [Action.fetchTarget, Action.attempt "u1", Action.skipFail "u1",
          Action.send "**alice#0001** from <#src>\nu1" [] "m2"]) ∧
    countSends (messageCreate cfgS envFailAll [] msgS).2 = 1 :=
  ⟨by
      have h := (create_fallback_to_text cfgS envFailAll [] msgS (by decide) (by decide)
        (by decide) (by decide) (by decide)).1
      rw [h]; decide,
    (create_fallback_to_text cfgS envFailAll [] msgS (by decide) (by decide)
      (by decide) (by decide) (by decide)).2.1⟩

end Ditto
